import Mathlib

/-!
Verification development for the git-id-switcher extension.

The JavaScript source is shallowly embedded: strings are lists of
characters (`Str`), the filesystem and the external processes
(ssh-keygen, ssh, git, clipboard) are explicit environment records, and
each operation of the source becomes a total Lean function from its
inputs and environment to the message it posts plus the effects it
performs.
-/

/-- Strings of the embedded program are lists of characters. -/
abbrev Str := List Char

/-- Whitespace test corresponding to the JavaScript regular expression
class backslash-s and to the characters removed by trim (ASCII part). -/
def isJsWs (c : Char) : Bool :=
  c == ' ' || c == '\t' || c == '\n' || c == '\r' || c == '\x0b' || c == '\x0c'

/-- Embedding of JavaScript toLowerCase, character by character. -/
def jsToLower (s : Str) : Str := s.map Char.toLower

/-- Helper for replacing each maximal whitespace run by one character:
prevWs records whether the previous character was whitespace (in which
case the current run has already emitted its replacement). -/
def replaceWsRunsAux (r : Char) : Bool → Str → Str
  | _, [] => []
  | prevWs, c :: rest =>
    if isJsWs c then
      if prevWs then replaceWsRunsAux r true rest
      else r :: replaceWsRunsAux r true rest
    else c :: replaceWsRunsAux r false rest

/-- Embedding of the JavaScript replace of the global whitespace-run
pattern by the single character r. -/
def replaceWsRuns (r : Char) (s : Str) : Str := replaceWsRunsAux r false s

/-- Slug used for SSH key file names: identityName.toLowerCase().replace
of whitespace runs by an underscore (source line 153 and 694). -/
def slugUnd (s : Str) : Str := replaceWsRuns '_' (jsToLower s)

/-- Slug used for host aliases: identityName.toLowerCase().replace of
whitespace runs by a hyphen (source line 209). -/
def slugDash (s : Str) : Str := replaceWsRuns '-' (jsToLower s)

/-- Key name derivation of generateSSHKey (source line 153). -/
def keyNameOf (identityName : Str) : Str := "id_rsa_".toList ++ slugUnd identityName

/-- Host alias derivation of updateSSHConfig (source line 209). -/
def hostAliasOf (provider identityName : Str) : Str :=
  provider ++ '-' :: slugDash identityName

/-- Boolean prefix test on character lists. -/
def isPrefixChars : Str → Str → Bool
  | [], _ => true
  | _ :: _, [] => false
  | a :: as, b :: bs => a == b && isPrefixChars as bs

/-- Embedding of the JavaScript String.includes substring test. -/
def containsSub (sub : Str) : Str → Bool
  | [] => isPrefixChars sub []
  | c :: rest => isPrefixChars sub (c :: rest) || containsSub sub rest

/-- Number of positions at which sub occurs in s. -/
def countOccs (sub : Str) : Str → Nat
  | [] => if isPrefixChars sub [] then 1 else 0
  | c :: rest => (if isPrefixChars sub (c :: rest) then 1 else 0) + countOccs sub rest

/-- Embedding of JavaScript String.trim: drop whitespace from both ends. -/
def jsTrim (s : Str) : Str :=
  ((s.dropWhile isJsWs).reverse.dropWhile isJsWs).reverse

/-- Embedding of JavaScript String.split on the newline character: the
result always has at least one (possibly empty) field. -/
def splitNl : Str → List Str
  | [] => [[]]
  | c :: rest =>
    match splitNl rest with
    | [] => [[]]
    | h :: t => if c = '\n' then [] :: h :: t else (c :: h) :: t

/-- Payload sent by the wizard UI for the updateSSHConfig command. -/
structure SSHConfigData where
  identityName : Str
  provider : Str
  keyName : Str
  hostUrl : Str
deriving DecidableEq

/-- Message posted back on the configUpdated channel: either success with
the host alias and a clone example, or failure with an error message. -/
inductive ConfigUpdatedMsg
  | ok (hostAlias cloneExample : Str)
  | err (error : Str)
deriving DecidableEq

/-- Text block appended to the SSH config file for a new entry, exactly
as the template literal of updateSSHConfig builds it (source 210-218). -/
def newConfigBlock (d : SSHConfigData) : Str :=
  "\n# ".toList ++ d.identityName ++ " - ".toList ++ d.provider
    ++ "\nHost ".toList ++ hostAliasOf d.provider d.identityName
    ++ "\n    HostName ".toList ++ d.hostUrl
    ++ "\n    User git\n    IdentityFile ~/.ssh/".toList ++ d.keyName
    ++ "\n    IdentitiesOnly yes\n\n".toList

/-- Clone example string reported on success (source line 230). -/
def cloneExampleOf (hostAlias : Str) : Str :=
  "git clone git@".toList ++ hostAlias ++ ":username/repo.git".toList

/-- Filesystem environment of updateSSHConfig: the outcome of reading
the SSH config file (none when the file does not exist) and the outcome
of writing it. -/
structure ConfigFsEnv where
  readResult : Except Str (Option Str)
  writeResult : Except Str Unit

/-- Embedding of updateSSHConfig (source 199-243).  Returns the
resulting file content (none when the operation failed before the file
state is determined) and the posted configUpdated message.  Reading a
missing file yields the empty content; when the literal marker
Host followed by the alias already occurs in the content no write is
performed; otherwise the new block is appended.  A thrown filesystem
error is caught and posted as a failure message. -/
def updateSSHConfigFs (d : SSHConfigData) (fs : ConfigFsEnv) :
    Option Str × ConfigUpdatedMsg :=
  match fs.readResult with
  | .error e => (none, .err e)
  | .ok maybeContent =>
    let configContent := maybeContent.getD []
    let hostAlias := hostAliasOf d.provider d.identityName
    if containsSub ("Host ".toList ++ hostAlias) configContent then
      (some configContent, .ok hostAlias (cloneExampleOf hostAlias))
    else
      match fs.writeResult with
      | .error e => (none, .err e)
      | .ok _ =>
        (some (configContent ++ newConfigBlock d),
         .ok hostAlias (cloneExampleOf hostAlias))

/-- Filesystem environment with both operations succeeding on a file
holding the given content. -/
def fsOkWith (content : Str) : ConfigFsEnv :=
  { readResult := .ok (some content), writeResult := .ok () }

/-- Payload sent by the wizard UI for the generateKey command. -/
structure GenerateKeyData where
  identityName : Str
  email : Str
  provider : Str
deriving DecidableEq

/-- Message posted back on the keyGenerated channel. -/
inductive KeyGeneratedMsg
  | ok (keyName publicKey provider : Str)
  | err (error : Str)
deriving DecidableEq

/-- Message posted back on the connectionTested channel. -/
structure ConnectionTestedMsg where
  success : Bool
  output : Str
deriving DecidableEq

/-- Message posted back on the publicKeyCopied channel. -/
inductive PublicKeyCopiedMsg
  | ok
  | err (error : Str)
deriving DecidableEq

/-- Environment of one wizard message dispatch: outcomes of all the
external effects a handler may perform.  keygen is the exit status of
the ssh-keygen process, readPub the outcome of reading the public key
file back, dirExists whether the SSH directory already exists, fs the
SSH config filesystem, sshErr with sshStdout and sshStderr the outcome
of the ssh probe process, and clipboard the outcome of the clipboard
write. -/
structure WizardEnv where
  dirExists : Bool
  keygen : Except Str Unit
  readPub : Except Str Str
  fs : ConfigFsEnv
  sshErr : Option Str
  sshStdout : Str
  sshStderr : Str
  clipboard : Except Str Unit

/-- Effects recorded by generateSSHKey: the mkdir mode when the SSH
directory had to be created, and the executed ssh-keygen command. -/
structure KeygenEffects where
  mkdirMode : Option Nat
  command : Str
deriving DecidableEq

/-- Embedding of generateSSHKey (source 151-197).  Derives the key name
from the identity name, creates the SSH directory with mode 448 (octal
700) when missing, runs ssh-keygen, reads the public key back trimmed;
a process failure or an unreadable public key file is caught and posted
as a failure message carrying the error text. -/
def generateSSHKey (sshDir : Str) (data : GenerateKeyData) (env : WizardEnv) :
    KeygenEffects × KeyGeneratedMsg :=
  let keyName := keyNameOf data.identityName
  let keyPath := sshDir ++ '/' :: keyName
  let effects : KeygenEffects :=
    { mkdirMode := if env.dirExists then none else some 448,
      command :=
        "ssh-keygen -t rsa -b 4096 -C \"".toList ++ data.email
          ++ "\" -f \"".toList ++ keyPath ++ "\" -N \"\"".toList }
  match env.keygen with
  | .error e => (effects, .err e)
  | .ok _ =>
    match env.readPub with
    | .error e => (effects, .err e)
    | .ok content => (effects, .ok keyName (jsTrim content) data.provider)

/-- Authentication success phrase tested first by testSSHConnection. -/
def authPhrase : Str := "successfully authenticated".toList

/-- Second authentication phrase tested by testSSHConnection (the
apostrophe is written as an escape). -/
def authPhraseLong : Str := "You\x27ve successfully authenticated".toList

/-- Embedding of testSSHConnection (source 245-275).  The exec callback
receives the process error (exit status or timeout kill) together with
the captured stdout and stderr; the error is ignored and success is
decided purely by searching the combined output for the authentication
phrases; the posted output is the trimmed combined text. -/
def testSSHConnection (_err : Option Str) (stdout stderr : Str) :
    ConnectionTestedMsg :=
  let output := stdout ++ stderr
  let success := containsSub authPhrase output || containsSub authPhraseLong output
  { success := success, output := jsTrim output }

/-- Embedding of copyPublicKey of the SSH manager (source 277-290): a
clipboard failure is caught and posted as a failure message. -/
def copyPublicKeyOp (clipboard : Except Str Unit) : PublicKeyCopiedMsg :=
  match clipboard with
  | .ok _ => .ok
  | .error e => .err e

/-- Messages arriving from the wizard webview (source 122-140). -/
inductive WizardMsg
  | generateKey (data : GenerateKeyData)
  | testConnection (hostAlias : Str)
  | updateSSHConfig (data : SSHConfigData)
  | copyPublicKey (publicKey : Str)
  | unknown (command : Str)

/-- Messages posted back to the wizard webview. -/
inductive PostedMsg
  | keyGenerated (m : KeyGeneratedMsg)
  | connectionTested (m : ConnectionTestedMsg)
  | configUpdated (m : ConfigUpdatedMsg)
  | publicKeyCopied (m : PublicKeyCopiedMsg)
deriving DecidableEq

/-- Embedding of the onDidReceiveMessage dispatcher of runSSHWizard
(source 122-148): each known command is delegated to its operation and
the structured result posted back; an unknown command only logs and
posts nothing.  Every modelled failure is already converted into a
structured failure message inside the operation itself, so the outer
try-catch of the source never fires in this model. -/
def handleWizardMessage (sshDir : Str) (msg : WizardMsg) (env : WizardEnv) :
    Option PostedMsg :=
  match msg with
  | .generateKey d => some (.keyGenerated (generateSSHKey sshDir d env).2)
  | .testConnection _ =>
    some (.connectionTested (testSSHConnection env.sshErr env.sshStdout env.sshStderr))
  | .updateSSHConfig d => some (.configUpdated (updateSSHConfigFs d env.fs).2)
  | .copyPublicKey _ => some (.publicKeyCopied (copyPublicKeyOp env.clipboard))
  | .unknown _ => none

/-- Stored Git identity record (source 638). -/
structure Identity where
  name : Str
  username : Str
  email : Str
  id : Nat
deriving DecidableEq

/-- Embedding of the list update of addIdentity (source 630-640): the
new identity is rejected when an existing one has the same name,
otherwise it is pushed at the end.  The Bool reports acceptance. -/
def addIdentity (identities : List Identity) (name username email : Str)
    (idStamp : Nat) : List Identity × Bool :=
  match identities.find? (fun i => i.name == name) with
  | some _ => (identities, false)
  | none => (identities ++ [⟨name, username, email, idStamp⟩], true)

/-- Embedding of the list update of deleteIdentity (source 666-667):
keep exactly the identities whose name differs from the deleted one. -/
def deleteIdentity (identities : List Identity) (name : Str) : List Identity :=
  identities.filter (fun i => !(i.name == name))

/-- Git configuration state of a workspace: the two keys user.name and
user.email as the Git CLI stores them. -/
structure GitConfigState where
  userName : Str
  userEmail : Str
deriving DecidableEq

/-- Embedding of switchIdentity (source 577-606): runs git config
user.name and git config user.email with the identity fields, so on
success both keys hold exactly those fields. -/
def switchIdentity (i : Identity) (_g : GitConfigState) : GitConfigState :=
  { userName := i.username, userEmail := i.email }

/-- Modelled from the spec: combined stdout of the external command
git config user.name followed by git config user.email, each printing
its value terminated by a newline (spec section 6, Git identity
commands). -/
def gitConfigReadStdout (g : GitConfigState) : Str :=
  g.userName ++ '\n' :: (g.userEmail ++ ['\n'])

/-- Identity as reported by getCurrentIdentity. -/
structure CurrentIdentity where
  username : Str
  email : Str
deriving DecidableEq

/-- Fallback string used when a field is missing or empty. -/
def notSet : Str := "Not set".toList

/-- JavaScript or-default on an optional line: a missing entry and the
empty string are both falsy and replaced by the fallback. -/
def orNotSet (o : Option Str) : Str :=
  match o with
  | none => notSet
  | some [] => notSet
  | some (c :: rest) => c :: rest

/-- Embedding of the resolving branch of getCurrentIdentity (source
553-575): trim the combined stdout, split on newlines, and take the
first two lines with the Not set fallback. -/
def getCurrentIdentity (stdout : Str) : CurrentIdentity :=
  let lines := splitNl (jsTrim stdout)
  { username := orNotSet lines[0]?, email := orNotSet lines[1]? }

/-- Validity of a value stored in Git configuration for the round-trip
property: nonempty, no embedded newline, and no whitespace at either
end (such a value survives printing, trimming and splitting). -/
def validGitValue (s : Str) : Bool :=
  match s.head?, s.getLast? with
  | some c, some d => !isJsWs c && !isJsWs d && s.all (fun x => !(x == '\n'))
  | _, _ => false

/-- Marker string whose presence in the config content makes
updateSSHConfig skip the write (source line 221). -/
def markerOf (d : SSHConfigData) : Str :=
  "Host ".toList ++ hostAliasOf d.provider d.identityName


/-! Helper lemmas about the embedded string operations. -/

theorem isPrefixChars_iff (a b : Str) : isPrefixChars a b = true ↔ a <+: b := by
  induction a generalizing b with
  | nil => simp [isPrefixChars]
  | cons x xs ih =>
    cases b with
    | nil => simp [isPrefixChars]
    | cons y ys => simp [isPrefixChars, List.cons_prefix_cons, ih]

theorem containsSub_iff (sub s : Str) : containsSub sub s = true ↔ sub <:+: s := by
  induction s with
  | nil => cases sub <;> simp [containsSub, isPrefixChars]
  | cons y ys ih =>
    simp [containsSub, isPrefixChars_iff, ih, List.infix_cons_iff]

theorem countOccs_nil_of_ne (sub : Str) (h : sub ≠ []) : countOccs sub [] = 0 := by
  cases sub with
  | nil => simp at h
  | cons x xs => simp [countOccs, isPrefixChars]

theorem isPrefixChars_append_nl (sub a b : Str) (h : '\n' ∉ sub) :
    isPrefixChars sub (a ++ '\n' :: b) = isPrefixChars sub a := by
  induction sub generalizing a with
  | nil => simp [isPrefixChars]
  | cons x xs ih =>
    cases a with
    | nil =>
      have hx : x ≠ '\n' := fun hx => h (hx ▸ List.mem_cons_self x xs)
      simp [isPrefixChars, hx]
    | cons y ys =>
      have hxs : '\n' ∉ xs := fun hm => h (List.mem_cons_of_mem _ hm)
      simp [isPrefixChars, ih ys hxs]

theorem countOccs_append_nl (sub a b : Str) (hne : sub ≠ []) (h : '\n' ∉ sub) :
    countOccs sub (a ++ '\n' :: b) = countOccs sub a + countOccs sub ('\n' :: b) := by
  induction a with
  | nil => simp [countOccs_nil_of_ne sub hne]
  | cons y ys ih =>
    have h1 : isPrefixChars sub (y :: (ys ++ '\n' :: b)) = isPrefixChars sub (y :: ys) := by
      have h2 := isPrefixChars_append_nl sub (y :: ys) b h
      simpa using h2
    simp only [List.cons_append, List.append_eq, countOccs, h1, ih]
    rw [Nat.add_assoc]

theorem countOccs_cons_ne (x y : Char) (s b : Str) (h : x ≠ y) :
    countOccs (x :: s) (y :: b) = countOccs (x :: s) b := by
  simp [countOccs, isPrefixChars, h]

theorem isPrefixChars_length_le (sub s : Str) (h : isPrefixChars sub s = true) :
    sub.length ≤ s.length :=
  ((isPrefixChars_iff sub s).1 h).length_le

theorem countOccs_zero_of_short (sub s : Str) (h : s.length < sub.length) :
    countOccs sub s = 0 := by
  induction s with
  | nil =>
    cases sub with
    | nil => simp at h
    | cons x xs => simp [countOccs, isPrefixChars]
  | cons y ys ih =>
    have h1 : isPrefixChars sub (y :: ys) = false := by
      cases hp : isPrefixChars sub (y :: ys)
      · rfl
      · have h2 := isPrefixChars_length_le _ _ hp
        omega
    have h2 : ys.length < sub.length := by
      simp only [List.length_cons] at h
      omega
    simp [countOccs, h1, ih h2]

theorem countOccs_own (sub : Str) (h : sub ≠ []) : countOccs sub sub = 1 := by
  cases sub with
  | nil => simp at h
  | cons x xs =>
    have hpre : isPrefixChars (x :: xs) (x :: xs) = true :=
      (isPrefixChars_iff _ _).2 (List.prefix_refl _)
    have hz : countOccs (x :: xs) xs = 0 :=
      countOccs_zero_of_short _ _ (by simp)
    simp [countOccs, hpre, hz]

theorem countOccs_eq_zero_iff (sub s : Str) (hne : sub ≠ []) :
    countOccs sub s = 0 ↔ containsSub sub s = false := by
  induction s with
  | nil =>
    cases sub with
    | nil => simp at hne
    | cons x xs => simp [countOccs, containsSub, isPrefixChars]
  | cons y ys ih =>
    cases hp : isPrefixChars sub (y :: ys)
    · simp [countOccs, containsSub, hp, ih]
    · simp [countOccs, containsSub, hp, ih]

theorem headChar_mem_of_containsSub (x : Char) (s l : Str)
    (h : containsSub (x :: s) l = true) : x ∈ l := by
  induction l with
  | nil => simp [containsSub, isPrefixChars] at h
  | cons y ys ih =>
    simp only [containsSub, Bool.or_eq_true] at h
    cases h with
    | inl hp =>
      have hxy : x = y := by
        simp only [isPrefixChars, Bool.and_eq_true, beq_iff_eq] at hp
        exact hp.1
      simp [hxy]
    | inr hc => exact List.mem_cons_of_mem _ (ih hc)

theorem mem_replaceWsRunsAux (r c : Char) (prev : Bool) (s : Str)
    (h : c ∈ replaceWsRunsAux r prev s) : c = r ∨ isJsWs c = false := by
  induction s generalizing prev with
  | nil => simp [replaceWsRunsAux] at h
  | cons x xs ih =>
    by_cases hw : isJsWs x
    · cases prev with
      | true =>
        simp only [replaceWsRunsAux, hw, if_true] at h
        exact ih true h
      | false =>
        simp only [replaceWsRunsAux, hw, if_true] at h
        rcases List.mem_cons.1 h with h1 | h1
        · exact Or.inl h1
        · exact ih true h1
    · simp only [replaceWsRunsAux, hw] at h
      rw [if_neg (by simp [hw])] at h
      rcases List.mem_cons.1 h with h1 | h1
      · right
        rw [h1]
        simpa using hw
      · exact ih false h1

theorem newline_not_mem_slugDash (s : Str) : '\n' ∉ slugDash s := by
  intro h
  rcases mem_replaceWsRunsAux '-' '\n' false (jsToLower s) h with h1 | h1
  · exact absurd h1 (by decide)
  · exact absurd h1 (by decide)

theorem newline_not_mem_marker (d : SSHConfigData) (hp : '\n' ∉ d.provider) :
    '\n' ∉ markerOf d := by
  intro h
  simp only [markerOf, hostAliasOf, List.mem_append, List.mem_cons] at h
  rcases h with h1 | h1 | h1 | h1
  · exact absurd h1 (by decide)
  · exact hp h1
  · exact absurd h1 (by decide)
  · exact newline_not_mem_slugDash _ h1

theorem splitNl_ne_nil (s : Str) : splitNl s ≠ [] := by
  cases s with
  | nil => simp [splitNl]
  | cons c rest =>
    simp only [splitNl]
    cases splitNl rest with
    | nil => simp
    | cons hd tl => by_cases hc : c = '\n' <;> simp [hc]

theorem splitNl_of_no_nl (s : Str) (h : '\n' ∉ s) : splitNl s = [s] := by
  induction s with
  | nil => rfl
  | cons c rest ih =>
    have hc : c ≠ '\n' := fun e => h (by simp [e])
    have hr : '\n' ∉ rest := fun m => h (List.mem_cons_of_mem _ m)
    simp [splitNl, ih hr, hc]

theorem splitNl_append_nl (a b : Str) (h : '\n' ∉ a) :
    splitNl (a ++ '\n' :: b) = a :: splitNl b := by
  induction a with
  | nil =>
    simp only [List.nil_append, splitNl]
    cases hb : splitNl b with
    | nil => exact absurd hb (splitNl_ne_nil b)
    | cons hd tl => simp
  | cons c a' ih =>
    have hc : c ≠ '\n' := fun e => h (by simp [e])
    have ha : '\n' ∉ a' := fun m => h (List.mem_cons_of_mem _ m)
    simp [splitNl, ih ha, hc]

/-- Comment line of the appended block. -/
def commentLineOf (d : SSHConfigData) : Str :=
  "# ".toList ++ d.identityName ++ " - ".toList ++ d.provider

/-- HostName line of the appended block. -/
def hostNameLineOf (d : SSHConfigData) : Str :=
  "    HostName ".toList ++ d.hostUrl

/-- IdentityFile line of the appended block. -/
def identityFileLineOf (d : SSHConfigData) : Str :=
  "    IdentityFile ~/.ssh/".toList ++ d.keyName

theorem newConfigBlock_decomp (d : SSHConfigData) :
    newConfigBlock d =
      '\n' :: (commentLineOf d ++ '\n' :: (markerOf d ++ '\n' ::
        (hostNameLineOf d ++ '\n' :: ("    User git".toList ++ '\n' ::
          (identityFileLineOf d ++ '\n' ::
            ("    IdentitiesOnly yes".toList ++ '\n' :: ['\n'])))))) := by
  have e1 : "\n# ".toList = '\n' :: "# ".toList := rfl
  have e2 : "\nHost ".toList = '\n' :: "Host ".toList := rfl
  have e3 : "\n    HostName ".toList = '\n' :: "    HostName ".toList := rfl
  have e4 : "\n    User git\n    IdentityFile ~/.ssh/".toList =
      '\n' :: ("    User git".toList ++ '\n' :: "    IdentityFile ~/.ssh/".toList) := rfl
  have e5 : "\n    IdentitiesOnly yes\n\n".toList =
      '\n' :: ("    IdentitiesOnly yes".toList ++ '\n' :: ['\n']) := rfl
  simp only [newConfigBlock, commentLineOf, markerOf, hostNameLineOf, identityFileLineOf,
    hostAliasOf, e1, e2, e3, e4, e5, List.cons_append, List.append_assoc, List.nil_append]

theorem marker_infix_block (d : SSHConfigData) :
    containsSub (markerOf d) (newConfigBlock d) = true := by
  rw [containsSub_iff]
  refine ⟨'\n' :: (commentLineOf d ++ ['\n']),
    '\n' :: (hostNameLineOf d ++ '\n' :: ("    User git".toList ++ '\n' ::
      (identityFileLineOf d ++ '\n' ::
        ("    IdentitiesOnly yes".toList ++ '\n' :: ['\n'])))), ?_⟩
  rw [newConfigBlock_decomp]
  simp [List.append_assoc]

theorem containsSub_append_right (sub a b : Str) (h : containsSub sub b = true) :
    containsSub sub (a ++ b) = true := by
  rw [containsSub_iff] at h ⊢
  exact h.trans ⟨a, [], by simp⟩

theorem markerOf_ne_nil (d : SSHConfigData) : markerOf d ≠ [] := by
  have hH : markerOf d =
      'H' :: ('o' :: 's' :: 't' :: ' ' :: hostAliasOf d.provider d.identityName) := rfl
  rw [hH]
  simp

theorem updateSSHConfigFs_ok_char (d : SSHConfigData) (c : Str) :
    updateSSHConfigFs d (fsOkWith c) =
      if containsSub (markerOf d) c then
        (some c,
         .ok (hostAliasOf d.provider d.identityName)
            (cloneExampleOf (hostAliasOf d.provider d.identityName)))
      else
        (some (c ++ newConfigBlock d),
         .ok (hostAliasOf d.provider d.identityName)
            (cloneExampleOf (hostAliasOf d.provider d.identityName))) := rfl

theorem countOccs_marker_block (d : SSHConfigData)
    (hnl : '\n' ∉ markerOf d)
    (hc : containsSub (markerOf d) (commentLineOf d) = false)
    (hu : containsSub (markerOf d) (hostNameLineOf d) = false)
    (hk : containsSub (markerOf d) (identityFileLineOf d) = false) :
    countOccs (markerOf d) (newConfigBlock d) = 1 := by
  have hH : markerOf d =
      'H' :: ('o' :: 's' :: 't' :: ' ' :: hostAliasOf d.provider d.identityName) := rfl
  have hne : markerOf d ≠ [] := by rw [hH]; simp
  have hcne : ∀ X, countOccs (markerOf d) ('\n' :: X) = countOccs (markerOf d) X := by
    intro X
    rw [hH]
    exact countOccs_cons_ne _ _ _ _ (by decide)
  have happ : ∀ L Y, countOccs (markerOf d) (L ++ '\n' :: Y) =
      countOccs (markerOf d) L + countOccs (markerOf d) Y := by
    intro L Y
    rw [countOccs_append_nl _ _ _ hne hnl, hcne Y]
  have hzero : ∀ L, containsSub (markerOf d) L = false → countOccs (markerOf d) L = 0 :=
    fun L hL => (countOccs_eq_zero_iff _ _ hne).2 hL
  have hmem : ∀ L, 'H' ∉ L → countOccs (markerOf d) L = 0 := by
    intro L hHL
    apply hzero
    cases hg : containsSub (markerOf d) L
    · rfl
    · rw [hH] at hg
      exact absurd (headChar_mem_of_containsSub _ _ _ hg) hHL
  have hnl2 : countOccs (markerOf d) ['\n'] = 0 := by
    rw [hcne []]
    exact countOccs_nil_of_ne _ hne
  rw [newConfigBlock_decomp, hcne, happ, happ, happ, happ, happ, happ,
    hzero _ hc, countOccs_own _ hne, hzero _ hu, hzero _ hk,
    hmem "    User git".toList (by decide),
    hmem "    IdentitiesOnly yes".toList (by decide), hnl2]

/-- C1: updateSSHConfig is idempotent.  When the marker (the text Host
followed by the derived host alias) already occurs anywhere in the
existing content, the call performs no write, the file stays
byte-for-byte unchanged, and the call still reports success with that
alias.  Whatever file content a call produces, an immediately repeated
call with identical inputs leaves that content unchanged.  Starting
from content without the marker, two identical calls yield a file in
which the marker occurs exactly once, given that no input field smuggles
the marker into the comment, HostName or IdentityFile lines and the
provider has no embedded newline. -/
theorem upsertEntry_idempotent (d : SSHConfigData) (content : Str) :
    (containsSub (markerOf d) content = true →
      updateSSHConfigFs d (fsOkWith content) =
        (some content,
         .ok (hostAliasOf d.provider d.identityName)
            (cloneExampleOf (hostAliasOf d.provider d.identityName)))) ∧
    (∀ c₁, (updateSSHConfigFs d (fsOkWith content)).1 = some c₁ →
      updateSSHConfigFs d (fsOkWith c₁) =
        (some c₁,
         .ok (hostAliasOf d.provider d.identityName)
            (cloneExampleOf (hostAliasOf d.provider d.identityName)))) ∧
    (containsSub (markerOf d) content = false →
      '\n' ∉ d.provider →
      containsSub (markerOf d) (commentLineOf d) = false →
      containsSub (markerOf d) (hostNameLineOf d) = false →
      containsSub (markerOf d) (identityFileLineOf d) = false →
      ∀ c₁ c₂, (updateSSHConfigFs d (fsOkWith content)).1 = some c₁ →
        (updateSSHConfigFs d (fsOkWith c₁)).1 = some c₂ →
        countOccs (markerOf d) c₂ = 1) := by
  have hmain : ∀ c, containsSub (markerOf d) c = true →
      updateSSHConfigFs d (fsOkWith c) =
        (some c,
         .ok (hostAliasOf d.provider d.identityName)
            (cloneExampleOf (hostAliasOf d.provider d.identityName))) := by
    intro c hcin
    rw [updateSSHConfigFs_ok_char, if_pos hcin]
  refine ⟨hmain content, ?_, ?_⟩
  · intro c₁ h1
    cases hcc : containsSub (markerOf d) content
    · have hwrote : (updateSSHConfigFs d (fsOkWith content)).1
          = some (content ++ newConfigBlock d) := by
        rw [updateSSHConfigFs_ok_char, if_neg (by simp [hcc])]
      rw [hwrote] at h1
      have hc₁ : c₁ = content ++ newConfigBlock d := by
        injection h1 with h1
        exact h1.symm
      subst hc₁
      exact hmain _ (containsSub_append_right _ _ _ (marker_infix_block d))
    · have heq := hmain content hcc
      rw [heq] at h1
      have hc₁ : c₁ = content := by
        injection h1 with h1
        exact h1.symm
      subst hc₁
      exact hmain _ hcc
  · intro hno hp hc hu hk c₁ c₂ h1 h2
    have hwrote : (updateSSHConfigFs d (fsOkWith content)).1
        = some (content ++ newConfigBlock d) := by
      rw [updateSSHConfigFs_ok_char, if_neg (by simp [hno])]
    rw [hwrote] at h1
    have hc₁ : c₁ = content ++ newConfigBlock d := by
      injection h1 with h1
      exact h1.symm
    subst hc₁
    have hsecond := hmain (content ++ newConfigBlock d)
      (containsSub_append_right (markerOf d) content (newConfigBlock d)
        (marker_infix_block d))
    rw [hsecond] at h2
    have hc₂ : c₂ = content ++ newConfigBlock d := by
      injection h2 with h2
      exact h2.symm
    subst hc₂
    have hnlm : '\n' ∉ markerOf d := newline_not_mem_marker d hp
    have hne : markerOf d ≠ [] := markerOf_ne_nil d
    rw [newConfigBlock_decomp, countOccs_append_nl _ _ _ hne hnlm,
      (countOccs_eq_zero_iff _ _ hne).2 hno]
    have := countOccs_marker_block d hnlm hc hu hk
    rw [newConfigBlock_decomp] at this
    rw [this]

/-- Concrete wizard input used to witness the idempotence claim. -/
def cfgWorkGithub : SSHConfigData :=
  ⟨"work".toList, "github".toList, "id_rsa_work".toList, "github.com".toList⟩

/-- Witness for C1 at a concrete input: a file already holding the
github-work block is returned byte-for-byte unchanged with a success
message, and the file produced by two calls on an empty config holds
the marker exactly once. -/
theorem upsertEntry_idempotent_w :
    updateSSHConfigFs cfgWorkGithub (fsOkWith (newConfigBlock cfgWorkGithub)) =
      (some (newConfigBlock cfgWorkGithub),
       .ok "github-work".toList (cloneExampleOf "github-work".toList)) ∧
    countOccs (markerOf cfgWorkGithub) (newConfigBlock cfgWorkGithub) = 1 := by
  constructor
  · have h2 := (upsertEntry_idempotent cfgWorkGithub (newConfigBlock cfgWorkGithub)).1
      (by decide)
    rw [show ("github-work".toList : Str) =
      hostAliasOf cfgWorkGithub.provider cfgWorkGithub.identityName from rfl]
    exact h2
  · have h3 := (upsertEntry_idempotent cfgWorkGithub []).2.2
      (by decide) (by decide) (by decide) (by decide) (by decide)
      ([] ++ newConfigBlock cfgWorkGithub) ([] ++ newConfigBlock cfgWorkGithub)
      (by rfl) (by decide)
    simpa using h3

/-- C2: on success for a not-yet-present alias, updateSSHConfig appends
exactly one well-formed block (comment line naming identity and
provider, Host line, indented HostName, User git, IdentityFile,
IdentitiesOnly yes, separated by blank lines) and reports success with
the host alias and the clone example, where the host alias is the
deterministic pure function of provider and identity name given by
provider, hyphen, then the lower-cased whitespace-collapsed name; in
particular github with Work Account yields github-work-account. -/
theorem upsertEntry_appends_block (d : SSHConfigData) (content : Str) :
    (containsSub (markerOf d) content = false →
      updateSSHConfigFs d (fsOkWith content) =
        (some (content ++
          ("\n# ".toList ++ d.identityName ++ " - ".toList ++ d.provider
            ++ "\nHost ".toList ++ (d.provider ++ '-' :: slugDash d.identityName)
            ++ "\n    HostName ".toList ++ d.hostUrl
            ++ "\n    User git\n    IdentityFile ~/.ssh/".toList ++ d.keyName
            ++ "\n    IdentitiesOnly yes\n\n".toList)),
         .ok (d.provider ++ '-' :: slugDash d.identityName)
            ("git clone git@".toList ++ (d.provider ++ '-' :: slugDash d.identityName)
              ++ ":username/repo.git".toList))) ∧
    hostAliasOf "github".toList "Work Account".toList = "github-work-account".toList := by
  constructor
  · intro h
    rw [updateSSHConfigFs_ok_char, if_neg (by simp [h])]
    rfl
  · decide

/-- Witness for C2 at a concrete input: upserting the work github entry
into an empty config appends exactly the block and reports the alias
github-work with its clone example. -/
theorem upsertEntry_appends_block_w :
    updateSSHConfigFs cfgWorkGithub (fsOkWith []) =
      (some (newConfigBlock cfgWorkGithub),
       .ok "github-work".toList
          "git clone git@github-work:username/repo.git".toList) := by
  have h := (upsertEntry_appends_block cfgWorkGithub []).1 (by decide)
  exact h.trans (by decide)

/-- Content holding an entry for github-workstation only, whose Host
line has the requested alias github-work as a strict prefix. -/
def prefixCollisionContent : Str :=
  "Host github-workstation\n    HostName github.com\n    User git\n".toList

/-- C9: the already-configured check is a plain substring test: with an
existing entry Host github-workstation and requested alias github-work,
the operation appends nothing, reports success with github-work, yet no
line of the file is a Host line for github-work. -/
theorem upsertEntry_prefix_collision :
    hostAliasOf "github".toList "work".toList = "github-work".toList ∧
    updateSSHConfigFs cfgWorkGithub (fsOkWith prefixCollisionContent) =
      (some prefixCollisionContent,
       .ok "github-work".toList (cloneExampleOf "github-work".toList)) ∧
    "Host github-work".toList ∉ splitNl prefixCollisionContent := by
  refine ⟨by decide, by decide, by decide⟩

/-- C3: testSSHConnection reports success exactly when the combined
stdout and stderr text contains the phrase successfully authenticated,
independently of the process error or exit status, and attaches the
trimmed combined output; the operation is a total function of the
process outcome, so no failure escapes it. -/
theorem testConnection_success_criterion (err : Option Str) (stdout stderr : Str) :
    (testSSHConnection err stdout stderr).success
        = containsSub authPhrase (stdout ++ stderr) ∧
    (testSSHConnection err stdout stderr).output = jsTrim (stdout ++ stderr) ∧
    ∀ other, testSSHConnection other stdout stderr = testSSHConnection err stdout stderr := by
  refine ⟨?_, rfl, fun other => rfl⟩
  show (containsSub authPhrase (stdout ++ stderr)
      || containsSub authPhraseLong (stdout ++ stderr))
      = containsSub authPhrase (stdout ++ stderr)
  cases h1 : containsSub authPhrase (stdout ++ stderr) with
  | true => simp
  | false =>
    cases h2 : containsSub authPhraseLong (stdout ++ stderr) with
    | false => simp [h2]
    | true =>
      have hsub : containsSub authPhrase authPhraseLong = true := by decide
      have h3 : containsSub authPhrase (stdout ++ stderr) = true := by
        rw [containsSub_iff] at hsub h2 ⊢
        exact hsub.trans h2
      rw [h1] at h3
      exact absurd h3 (by simp)

/-- C4: generateSSHKey records a mkdir of the SSH directory with mode
448 (octal 700) exactly when the directory is missing, invokes
ssh-keygen for 4096-bit RSA with no passphrase and the email as
comment at the deterministic path derived from the identity name,
returns the trimmed public key on success, and posts the underlying
error message when the generation process fails or the public key file
cannot be read; the key name for Work is id_rsa_work. -/
theorem generateKeyPair_contract (sshDir : Str) (data : GenerateKeyData) (env : WizardEnv) :
    ((generateSSHKey sshDir data env).1
        = ⟨if env.dirExists then none else some 448,
           "ssh-keygen -t rsa -b 4096 -C \"".toList ++ data.email
             ++ "\" -f \"".toList ++ (sshDir ++ '/' :: keyNameOf data.identityName)
             ++ "\" -N \"\"".toList⟩) ∧
    (∀ e, env.keygen = .error e → (generateSSHKey sshDir data env).2 = .err e) ∧
    (∀ e, env.keygen = .ok () → env.readPub = .error e →
      (generateSSHKey sshDir data env).2 = .err e) ∧
    (∀ s, env.keygen = .ok () → env.readPub = .ok s →
      (generateSSHKey sshDir data env).2
        = .ok (keyNameOf data.identityName) (jsTrim s) data.provider) ∧
    keyNameOf "Work".toList = "id_rsa_work".toList := by
  refine ⟨?_, ?_, ?_, ?_, by decide⟩
  · cases hk : env.keygen with
    | error e => simp [generateSSHKey, hk]
    | ok u =>
      cases hr : env.readPub with
      | error e => simp [generateSSHKey, hk, hr]
      | ok s => simp [generateSSHKey, hk, hr]
  · intro e he
    simp [generateSSHKey, he]
  · intro e hk hr
    simp [generateSSHKey, hk, hr]
  · intro s hk hr
    simp [generateSSHKey, hk, hr]

/-- Environment in which every external operation succeeds and the
public key file holds a key with surrounding whitespace. -/
def envKeyOk : WizardEnv :=
  ⟨true, .ok (), .ok " ssh-rsa AAAB a@b.com \n".toList, fsOkWith [],
   none, [], [], .ok ()⟩

/-- Witness for C4 at a concrete input: identity Work with email
a@b.com yields key name id_rsa_work and the trimmed public key, and no
mkdir is recorded because the directory exists. -/
theorem generateKeyPair_contract_w :
    (generateSSHKey "/home/u/.ssh".toList
        ⟨"Work".toList, "a@b.com".toList, "github".toList⟩ envKeyOk).2
      = .ok "id_rsa_work".toList "ssh-rsa AAAB a@b.com".toList "github".toList ∧
    (generateSSHKey "/home/u/.ssh".toList
        ⟨"Work".toList, "a@b.com".toList, "github".toList⟩ envKeyOk).1.mkdirMode
      = none := by
  constructor
  · have h := (generateKeyPair_contract "/home/u/.ssh".toList
      ⟨"Work".toList, "a@b.com".toList, "github".toList⟩ envKeyOk).2.2.2.1
      " ssh-rsa AAAB a@b.com \n".toList rfl rfl
    exact h.trans (by decide)
  · have h := (generateKeyPair_contract "/home/u/.ssh".toList
      ⟨"Work".toList, "a@b.com".toList, "github".toList⟩ envKeyOk).1
    rw [h]
    decide

theorem updateSSHConfigFs_writeError (d : SSHConfigData) (mc : Option Str) (e : Str)
    (h : containsSub (markerOf d) (mc.getD []) = false) :
    updateSSHConfigFs d ⟨.ok mc, .error e⟩ = (none, .err e) := by
  have hrfl : updateSSHConfigFs d ⟨.ok mc, .error e⟩ =
      if containsSub (markerOf d) (mc.getD []) then
        (some (mc.getD []),
         .ok (hostAliasOf d.provider d.identityName)
            (cloneExampleOf (hostAliasOf d.provider d.identityName)))
      else (none, .err e) := rfl
  rw [hrfl, if_neg (by simp [h])]

/-- C8: every external-process failure arising while handling a wizard
message (key generation, public key read-back, SSH config read or
write, clipboard) is converted at the boundary of the operation that
launched it into a structured failure message posted on that
operation's own channel; the connection test always posts a structured
result; every known command yields a posted message, so no failure
escapes the dispatcher. -/
theorem wizard_failures_are_structured (sshDir : Str) (env : WizardEnv) :
    (∀ d e, env.keygen = .error e →
      handleWizardMessage sshDir (.generateKey d) env
        = some (.keyGenerated (.err e))) ∧
    (∀ d e, env.keygen = .ok () → env.readPub = .error e →
      handleWizardMessage sshDir (.generateKey d) env
        = some (.keyGenerated (.err e))) ∧
    (∀ d e w, env.fs = ⟨.error e, w⟩ →
      handleWizardMessage sshDir (.updateSSHConfig d) env
        = some (.configUpdated (.err e))) ∧
    (∀ d e mc, env.fs = ⟨.ok mc, .error e⟩ →
      containsSub (markerOf d) (mc.getD []) = false →
      handleWizardMessage sshDir (.updateSSHConfig d) env
        = some (.configUpdated (.err e))) ∧
    (∀ p e, env.clipboard = .error e →
      handleWizardMessage sshDir (.copyPublicKey p) env
        = some (.publicKeyCopied (.err e))) ∧
    (∀ a, handleWizardMessage sshDir (.testConnection a) env
        = some (.connectionTested
            (testSSHConnection env.sshErr env.sshStdout env.sshStderr))) ∧
    (∀ msg, handleWizardMessage sshDir msg env = none ↔ ∃ c, msg = .unknown c) := by
  refine ⟨?_, ?_, ?_, ?_, ?_, fun a => rfl, ?_⟩
  · intro d e he
    simp [handleWizardMessage, generateSSHKey, he]
  · intro d e hk hr
    simp [handleWizardMessage, generateSSHKey, hk, hr]
  · intro d e w hfs
    simp [handleWizardMessage, updateSSHConfigFs, hfs]
  · intro d e mc hfs hm
    simp only [handleWizardMessage, hfs, updateSSHConfigFs_writeError d mc e hm]
  · intro p e hc
    simp [handleWizardMessage, copyPublicKeyOp, hc]
  · intro msg
    cases msg <;> simp [handleWizardMessage]

/-- Environment in which every external operation fails with a
distinct error message. -/
def envAllFail : WizardEnv :=
  ⟨false, .error "keygen failed".toList, .error "pub unreadable".toList,
   ⟨.error "config read failed".toList, .error "config write failed".toList⟩,
   some "timeout".toList, [], [], .error "clipboard failed".toList⟩

/-- Witness for C8 at concrete inputs: each failing operation posts a
structured failure on its own channel. -/
theorem wizard_failures_are_structured_w :
    handleWizardMessage []
        (.generateKey ⟨"Work".toList, "a@b.com".toList, "github".toList⟩) envAllFail
      = some (.keyGenerated (.err "keygen failed".toList)) ∧
    handleWizardMessage [] (.updateSSHConfig cfgWorkGithub) envAllFail
      = some (.configUpdated (.err "config read failed".toList)) ∧
    handleWizardMessage [] (.copyPublicKey []) envAllFail
      = some (.publicKeyCopied (.err "clipboard failed".toList)) := by
  refine ⟨?_, ?_, ?_⟩
  · exact (wizard_failures_are_structured [] envAllFail).1
      ⟨"Work".toList, "a@b.com".toList, "github".toList⟩ "keygen failed".toList rfl
  · exact (wizard_failures_are_structured [] envAllFail).2.2.1
      cfgWorkGithub "config read failed".toList
      (.error "config write failed".toList) rfl
  · exact (wizard_failures_are_structured [] envAllFail).2.2.2.2.1
      [] "clipboard failed".toList rfl

/-- C5: adding an identity whose name equals the name of a stored
identity is rejected and leaves the stored list unchanged, and every
add preserves uniqueness of names among stored identities. -/
theorem addIdentity_preserves_name_uniqueness (ids : List Identity)
    (name username email : Str) (idStamp : Nat) :
    ((∃ i ∈ ids, i.name = name) →
      addIdentity ids name username email idStamp = (ids, false)) ∧
    ((ids.map Identity.name).Nodup →
      (((addIdentity ids name username email idStamp).1).map Identity.name).Nodup) := by
  constructor
  · intro hex
    have hsome : (ids.find? (fun i => i.name == name)).isSome := by
      rw [List.find?_isSome]
      obtain ⟨i, hi, hn⟩ := hex
      exact ⟨i, hi, by simp [hn]⟩
    rw [addIdentity]
    cases hf : ids.find? (fun i => i.name == name) with
    | none => rw [hf] at hsome; simp at hsome
    | some j => rfl
  · intro hnd
    rw [addIdentity]
    cases hf : ids.find? (fun i => i.name == name) with
    | some j => exact hnd
    | none =>
      have hall := List.find?_eq_none.1 hf
      simp only [List.map_append, List.map_cons, List.map_nil]
      rw [List.nodup_append]
      refine ⟨hnd, List.nodup_singleton _, ?_⟩
      intro a ha hb
      simp only [List.mem_singleton] at hb
      subst hb
      obtain ⟨i, hi, hn⟩ := List.mem_map.1 ha
      exact absurd hn (by simpa using hall i hi)

/-- Witness for C5 at concrete inputs: adding a second identity named
Work is rejected and leaves the one-element list unchanged, whose names
stay without duplicates. -/
theorem addIdentity_preserves_name_uniqueness_w :
    addIdentity [⟨"Work".toList, "alice".toList, "a@b.com".toList, 1⟩]
        "Work".toList "bob".toList "b@c.com".toList 2
      = ([⟨"Work".toList, "alice".toList, "a@b.com".toList, 1⟩], false) ∧
    ((addIdentity [⟨"Work".toList, "alice".toList, "a@b.com".toList, 1⟩]
        "Work".toList "bob".toList "b@c.com".toList 2).1.map Identity.name).Nodup := by
  constructor
  · exact (addIdentity_preserves_name_uniqueness
      [⟨"Work".toList, "alice".toList, "a@b.com".toList, 1⟩]
      "Work".toList "bob".toList "b@c.com".toList 2).1
      ⟨⟨"Work".toList, "alice".toList, "a@b.com".toList, 1⟩, by simp, rfl⟩
  · exact (addIdentity_preserves_name_uniqueness
      [⟨"Work".toList, "alice".toList, "a@b.com".toList, 1⟩]
      "Work".toList "bob".toList "b@c.com".toList 2).2 (by decide)

/-- C6: deleting a name that matches no stored identity leaves the
list unchanged, and deleting the name of a stored identity from a list
with unique names removes exactly that element, reducing the length by
exactly one. -/
theorem deleteIdentity_removes_exactly_one (ids : List Identity) (name : Str) :
    ((∀ i ∈ ids, i.name ≠ name) → deleteIdentity ids name = ids) ∧
    ((ids.map Identity.name).Nodup →
      ∀ x ∈ ids, x.name = name →
        ∃ l₁ l₂, ids = l₁ ++ x :: l₂ ∧
          deleteIdentity ids name = l₁ ++ l₂ ∧
          (deleteIdentity ids name).length + 1 = ids.length) := by
  constructor
  · intro hall
    rw [deleteIdentity, List.filter_eq_self]
    intro a ha
    simp [hall a ha]
  · intro hnd x hx hxname
    obtain ⟨l₁, l₂, rfl⟩ := List.append_of_mem hx
    have hmap := hnd
    simp only [List.map_append, List.map_cons] at hmap
    rw [List.nodup_append] at hmap
    obtain ⟨h₁, h₂, hdisj⟩ := hmap
    rw [List.nodup_cons] at h₂
    have hx0 : (!(x.name == name)) = false := by simp [hxname]
    have hl₁ : l₁.filter (fun i => !(i.name == name)) = l₁ := by
      rw [List.filter_eq_self]
      intro a ha
      have hmem : a.name ∈ l₁.map Identity.name := List.mem_map_of_mem _ ha
      have hne : a.name ≠ name := by
        intro he
        exact hdisj (he ▸ hmem) (by simp [hxname])
      simp [hne]
    have hl₂ : l₂.filter (fun i => !(i.name == name)) = l₂ := by
      rw [List.filter_eq_self]
      intro a ha
      have hmem : a.name ∈ l₂.map Identity.name := List.mem_map_of_mem _ ha
      have hne : a.name ≠ name := by
        intro he
        exact h₂.1 (by rw [hxname, ← he]; exact hmem)
      simp [hne]
    have hdel : deleteIdentity (l₁ ++ x :: l₂) name = l₁ ++ l₂ := by
      rw [deleteIdentity, List.filter_append, List.filter_cons, hx0]
      simp only [Bool.false_eq_true, if_false]
      rw [hl₁, hl₂]
    refine ⟨l₁, l₂, rfl, hdel, ?_⟩
    rw [hdel]
    simp only [List.length_append, List.length_cons]
    omega

/-- Witness for C6 at concrete inputs: deleting the absent name
Personal from a one-element list is a no-op, and deleting the present
name Work empties it. -/
theorem deleteIdentity_removes_exactly_one_w :
    deleteIdentity [⟨"Work".toList, "alice".toList, "a@b.com".toList, 1⟩]
        "Personal".toList
      = [⟨"Work".toList, "alice".toList, "a@b.com".toList, 1⟩] ∧
    deleteIdentity [⟨"Work".toList, "alice".toList, "a@b.com".toList, 1⟩]
        "Work".toList = [] := by
  constructor
  · exact (deleteIdentity_removes_exactly_one
      [⟨"Work".toList, "alice".toList, "a@b.com".toList, 1⟩]
      "Personal".toList).1 (by decide)
  · obtain ⟨l₁, l₂, hids, hdel, hlen⟩ := (deleteIdentity_removes_exactly_one
      [⟨"Work".toList, "alice".toList, "a@b.com".toList, 1⟩] "Work".toList).2
      (by decide) ⟨"Work".toList, "alice".toList, "a@b.com".toList, 1⟩ (by simp) rfl
    have h0 : (deleteIdentity [⟨"Work".toList, "alice".toList, "a@b.com".toList, 1⟩]
        "Work".toList).length = 0 := by
      simp only [List.length_cons, List.length_nil] at hlen
      omega
    exact List.length_eq_zero.1 h0

theorem validGitValue_spec (s : Str) (h : validGitValue s = true) :
    ∃ c s' e' d, s = c :: s' ∧ s = e' ++ [d] ∧
      isJsWs c = false ∧ isJsWs d = false ∧ '\n' ∉ s := by
  cases hs : s with
  | nil => rw [hs] at h; simp [validGitValue] at h
  | cons c s' =>
    rcases List.eq_nil_or_concat (c :: s') with hnil | ⟨e', d, hcat⟩
    · simp at hnil
    · rw [List.concat_eq_append] at hcat
      rw [hs, hcat] at h
      rw [validGitValue] at h
      rw [List.getLast?_concat] at h
      have hhead : (e' ++ [d]).head? = some ((c :: s').head (by simp)) := by
        rw [← hcat]
        rfl
      rw [hhead] at h
      simp only [Bool.and_eq_true, List.all_eq_true] at h
      refine ⟨c, s', e', d, rfl, hs ▸ hcat, ?_, ?_, ?_⟩
      · have h1 := h.1.1
        have hhd : (c :: s').head (by simp) = c := rfl
        rw [hhd] at h1
        simpa using h1
      · simpa using h.1.2
      · intro hmem
        have h2 := h.2 '\n' (by rw [← hcat]; exact hmem)
        simp at h2

theorem jsTrim_wrap (u e : Str) (hu : validGitValue u = true)
    (he : validGitValue e = true) :
    jsTrim (u ++ '\n' :: (e ++ ['\n'])) = u ++ '\n' :: e := by
  obtain ⟨c, u', eu, du, hu1, hu2, huc, hud, hunl⟩ := validGitValue_spec u hu
  obtain ⟨ce, e1, e', d, he1, he2, hec, hed, henl⟩ := validGitValue_spec e he
  subst hu1
  subst he2
  rw [jsTrim]
  have hdrop : ((c :: u') ++ '\n' :: ((e' ++ [d]) ++ ['\n'])).dropWhile isJsWs
      = (c :: u') ++ '\n' :: ((e' ++ [d]) ++ ['\n']) := by
    simp [List.dropWhile_cons, huc]
  rw [hdrop]
  have hrev : ((c :: u') ++ '\n' :: ((e' ++ [d]) ++ ['\n'])).reverse
      = '\n' :: d :: (e'.reverse ++ '\n' :: ((c :: u').reverse)) := by
    simp [List.reverse_append]
  rw [hrev]
  have hdrop2 : ('\n' :: d :: (e'.reverse ++ '\n' :: ((c :: u').reverse))).dropWhile isJsWs
      = d :: (e'.reverse ++ '\n' :: ((c :: u').reverse)) := by
    simp [List.dropWhile_cons, hed, show isJsWs '\n' = true from rfl]
  rw [hdrop2]
  simp [List.reverse_cons, List.reverse_append, List.append_assoc]

/-- C7: for valid username and email values, after adding the identity
to a list with no identity of that name and switching to it, reading
the Git identity back returns exactly the stored username and email. -/
theorem addSwitchRead_roundtrip (ids : List Identity) (name username email : Str)
    (idStamp : Nat) (g : GitConfigState)
    (hfresh : ∀ i ∈ ids, i.name ≠ name)
    (hu : validGitValue username = true) (he : validGitValue email = true) :
    (addIdentity ids name username email idStamp).1
      = ids ++ [⟨name, username, email, idStamp⟩] ∧
    getCurrentIdentity (gitConfigReadStdout
        (switchIdentity ⟨name, username, email, idStamp⟩ g)) = ⟨username, email⟩ := by
  constructor
  · rw [addIdentity]
    cases hf : ids.find? (fun i => i.name == name) with
    | some j =>
      have hpj := List.find?_some hf
      have hjmem := List.mem_of_find?_eq_some hf
      exact absurd (by simpa using hpj) (hfresh j hjmem)
    | none => rfl
  · have hstdout : gitConfigReadStdout
        (switchIdentity ⟨name, username, email, idStamp⟩ g)
        = username ++ '\n' :: (email ++ ['\n']) := rfl
    rw [hstdout]
    have htrim := jsTrim_wrap username email hu he
    obtain ⟨c, u', eu, du, hu1, hu2, huc, hud, hunl⟩ := validGitValue_spec username hu
    obtain ⟨ce, e1, e', d, he1, he2, hec, hed, henl⟩ := validGitValue_spec email he
    have hsplit : splitNl (jsTrim (username ++ '\n' :: (email ++ ['\n'])))
        = [username, email] := by
      rw [htrim, splitNl_append_nl _ _ hunl, splitNl_of_no_nl _ henl]
    simp only [getCurrentIdentity, hsplit]
    rw [hu1, he1]
    simp [orNotSet]

/-- Witness for C7 at concrete inputs: adding Work with alice and
a@b.com to an empty list, switching, and reading back returns alice
and a@b.com. -/
theorem addSwitchRead_roundtrip_w :
    (addIdentity [] "Work".toList "alice".toList "a@b.com".toList 7).1
      = [⟨"Work".toList, "alice".toList, "a@b.com".toList, 7⟩] ∧
    getCurrentIdentity (gitConfigReadStdout
        (switchIdentity ⟨"Work".toList, "alice".toList, "a@b.com".toList, 7⟩ ⟨[], []⟩))
      = ⟨"alice".toList, "a@b.com".toList⟩ := by
  have h := addSwitchRead_roundtrip [] "Work".toList "alice".toList "a@b.com".toList 7
    ⟨[], []⟩ (by simp) (by decide) (by decide)
  exact ⟨by simpa using h.1, h.2⟩

/-- C10: getCurrentIdentity is a total function of the command output
(on a successful combined Git read it resolves and never rejects); it
splits the trimmed output on newlines, and when fewer than two lines
result, or a line is empty, the corresponding field is the literal
Not set rather than an error; two nonempty lines are returned as the
username and email. -/
theorem getCurrentIdentity_fallbacks (stdout : Str) :
    ((splitNl (jsTrim stdout)).length < 2 →
      (getCurrentIdentity stdout).email = notSet) ∧
    ((splitNl (jsTrim stdout))[0]? = some [] →
      (getCurrentIdentity stdout).username = notSet) ∧
    ((splitNl (jsTrim stdout))[1]? = some [] →
      (getCurrentIdentity stdout).email = notSet) ∧
    (∀ u e, splitNl (jsTrim stdout) = [u, e] → u ≠ [] → e ≠ [] →
      getCurrentIdentity stdout = ⟨u, e⟩) := by
  refine ⟨?_, ?_, ?_, ?_⟩
  · intro hlen
    have h1 : (splitNl (jsTrim stdout))[1]? = none := List.getElem?_eq_none (by omega)
    simp [getCurrentIdentity, h1, orNotSet]
  · intro h0
    simp [getCurrentIdentity, h0, orNotSet]
  · intro h1
    simp [getCurrentIdentity, h1, orNotSet]
  · intro u e hse hune hene
    simp only [getCurrentIdentity, hse]
    cases u with
    | nil => exact absurd rfl hune
    | cons cu tu =>
      cases e with
      | nil => exact absurd rfl hene
      | cons ce te => simp [orNotSet]

/-- Witness for C10 at concrete inputs: a single-line output alice
yields Not set for the email, and the two-line output alice then
a@b.com yields both fields verbatim. -/
theorem getCurrentIdentity_fallbacks_w :
    (getCurrentIdentity "alice".toList).email = notSet ∧
    getCurrentIdentity "alice\na@b.com\n".toList
      = ⟨"alice".toList, "a@b.com".toList⟩ := by
  constructor
  · exact (getCurrentIdentity_fallbacks "alice".toList).1 (by decide)
  · exact (getCurrentIdentity_fallbacks "alice\na@b.com\n".toList).2.2.2
      "alice".toList "a@b.com".toList (by decide) (by decide) (by decide)
